import Mathlib

/-!
Verification of the `ros-cdr-typescript` repository: the CDR serialization
library (`packages/ros-cdr-serialization/src/index.ts`) and the multiplexed
session client `RosCdrClient`.

The serialization schema tree (`RosPrimitiveSchema` / `RosArraySchema` /
`RosMessageSchema`) is embedded from the source.  The byte-level reader and
writer the source delegates to (`CdrReader` / `CdrWriter` from the external
`@foxglove/cdr` package, not part of this repository) are modelled from the
spec's description of the CDR wire format: 4-byte envelope header, alignment
measured from the start of the payload, little-endian fixed-width integers,
length-prefixed zero-terminated strings, count-prefixed sequences.

JavaScript values are modelled as follows: `number`-valued integer fields and
`bigint` fields as `Int`, `float32`/`float64` fields by their IEEE-754 bit
patterns as `Nat` (serialization only moves the bit pattern), strings by their
UTF-8 byte lists, objects as association lists in field order.
-/

namespace RosCdr

/-- The 14 canonical primitive tags (`RosPrimitiveType` in the source, the
keys of `RosPrimitiveTypeMap`; `string` and `wstring` share one entry name
space with the rest). -/
inductive PrimTag where
  | bool
  | byte
  | char
  | float32
  | float64
  | int8
  | uint8
  | int16
  | uint16
  | int32
  | uint32
  | int64
  | uint64
  | str
  | wstr
deriving DecidableEq, Repr

/-- The list of the 14 canonical primitive tag names, as the string keys of
`RosPrimitiveTypeMap` in the source. -/
def canonicalTags : List String :=
  ["bool", "byte", "char", "float32", "float64", "int8", "uint8",
   "int16", "uint16", "int32", "uint32", "int64", "uint64",
   "string", "wstring"]

/-- The TypeScript constructor `RosPrimitiveSchema` only accepts a type
argument assignable to the closed union `RosPrimitiveType`; this function is
that assignability check on a string tag.  A tag outside the 14 canonical
names is not assignable, hence yields no `PrimTag`. -/
def primTagOfString (s : String) : Option PrimTag :=
  if s = "bool" then some .bool
  else if s = "byte" then some .byte
  else if s = "char" then some .char
  else if s = "float32" then some .float32
  else if s = "float64" then some .float64
  else if s = "int8" then some .int8
  else if s = "uint8" then some .uint8
  else if s = "int16" then some .int16
  else if s = "uint16" then some .uint16
  else if s = "int32" then some .int32
  else if s = "uint32" then some .uint32
  else if s = "int64" then some .int64
  else if s = "uint64" then some .uint64
  else if s = "string" then some .str
  else if s = "wstring" then some .wstr
  else none

mutual
/-- The schema tree: `RosPrimitiveSchema` / `RosArraySchema` (with optional
fixed length) / `RosMessageSchema` (type name and ordered fields) from the
source. -/
inductive RosSchema where
  | prim : PrimTag → RosSchema
  | arr : RosSchema → Option Nat → RosSchema
  | msg : String → FieldList → RosSchema

/-- The ordered field list of a message schema (`Object.entries` of the
shape object, in declaration order). -/
inductive FieldList where
  | nil : FieldList
  | cons : String → RosSchema → FieldList → FieldList
end

/-- The universal value domain for schema-conforming JavaScript values. -/
inductive RosValue where
  | vbool : Bool → RosValue
  | vint : Int → RosValue
  | vbig : Int → RosValue
  | vfloat : Nat → RosValue
  | vstr : List Nat → RosValue
  | varr : List RosValue → RosValue
  | vmsg : List (String × RosValue) → RosValue

namespace RosValue

def asBool : RosValue → Bool
  | .vbool b => b
  | _ => false

def asNum : RosValue → Int
  | .vint n => n
  | _ => 0

def asBig : RosValue → Int
  | .vbig n => n
  | _ => 0

def asBits : RosValue → Nat
  | .vfloat n => n
  | _ => 0

def asStr : RosValue → List Nat
  | .vstr bs => bs
  | _ => []

def asArr : RosValue → List RosValue
  | .varr vs => vs
  | _ => []

def asMsg : RosValue → List (String × RosValue)
  | .vmsg l => l
  | _ => []

end RosValue

/-! ### Little-endian byte helpers (modelled from the spec's wire format) -/

/-- Little-endian bytes of `n`, `w` bytes wide (the `DataView` setters wrap
values modulo `2 ^ (8 * w)`). -/
def natLE : Nat → Nat → List Nat
  | 0, _ => []
  | w + 1, n => n % 256 :: natLE w (n / 256)

/-- The unsigned value of a little-endian byte list. -/
def natFromLE : List Nat → Nat
  | [] => 0
  | b :: bs => b % 256 + 256 * natFromLE bs

/-- Two's-complement little-endian bytes of the integer `v`, `w` bytes
wide. -/
def intLE (w : Nat) (v : Int) : List Nat :=
  natLE w ((v % ((2 ^ (8 * w) : Nat) : Int)).toNat)

/-- Two's-complement decoding of an unsigned value `n` read as a `b`-bit
signed integer. -/
def decodeTC (b : Nat) (n : Nat) : Int :=
  if n < 2 ^ (b - 1) then (n : Int) else (n : Int) - (2 ^ b : Nat)

/-- Number of padding bytes needed to align offset `off` to a multiple of
`w`. -/
def alignPad (w off : Nat) : Nat := (w - off % w) % w

/-- The zero padding emitted to align offset `off` to a multiple of `w`. -/
def padBytes (w off : Nat) : List Nat := List.replicate (alignPad w off) 0

/-! ### Reader primitives -/

/-- Read `w` raw bytes at position `pos`; fails (like a `DataView`
`RangeError`) when fewer than `w` bytes remain. -/
def readBytes (bytes : List Nat) (pos w : Nat) : Option (List Nat) :=
  if pos + w ≤ bytes.length then some ((bytes.drop pos).take w) else none

/-- Read a `w`-byte little-endian unsigned integer at position `pos`. -/
def readUIntLE (bytes : List Nat) (pos w : Nat) : Option (Nat × Nat) :=
  (readBytes bytes pos w).map (fun bs => (natFromLE bs, pos + w))

/-- Alignment requirement of each primitive tag (1-byte values have none;
the string length prefix is a 4-byte-aligned uint32). -/
def primAlign : PrimTag → Nat
  | .int16 | .uint16 => 2
  | .int32 | .uint32 | .float32 | .str | .wstr => 4
  | .int64 | .uint64 | .float64 => 8
  | _ => 1

/-- Byte width of the fixed-width primitive tags (strings are variable). -/
def primWidth : PrimTag → Nat
  | .bool | .byte | .char | .int8 | .uint8 => 1
  | .int16 | .uint16 => 2
  | .int32 | .uint32 | .float32 => 4
  | .int64 | .uint64 | .float64 | .str | .wstr => 8

/-- The bytes a primitive write appends after its alignment padding
(`RosPrimitiveSchema.write` dispatching into the `CdrWriter` setters). -/
def corePrim (t : PrimTag) (v : RosValue) : List Nat :=
  match t with
  | .bool => [if v.asBool then 1 else 0]
  | .byte | .char | .uint8 | .int8 => intLE 1 v.asNum
  | .int16 | .uint16 => intLE 2 v.asNum
  | .int32 | .uint32 => intLE 4 v.asNum
  | .float32 => natLE 4 v.asBits
  | .float64 => natLE 8 v.asBits
  | .int64 | .uint64 => intLE 8 v.asBig
  | .str | .wstr =>
      natLE 4 (v.asStr.length + 1) ++ v.asStr.map (· % 256) ++ [0]

/-- Full primitive write at absolute offset `off`: alignment padding, then
the value bytes. -/
def writePrim (t : PrimTag) (v : RosValue) (off : Nat) : List Nat :=
  padBytes (primAlign t) off ++ corePrim t v

/-- Primitive read at absolute position `pos`
(`RosPrimitiveSchema.read` dispatching into the `CdrReader` getters). -/
def readPrim (t : PrimTag) (bytes : List Nat) (pos : Nat) :
    Option (RosValue × Nat) :=
  let p := pos + alignPad (primAlign t) pos
  match t with
  | .bool => (readUIntLE bytes p 1).map (fun x => (.vbool (x.1 != 0), x.2))
  | .byte | .char | .uint8 =>
      (readUIntLE bytes p 1).map (fun x => (.vint (x.1 : Int), x.2))
  | .int8 =>
      (readUIntLE bytes p 1).map (fun x => (.vint (decodeTC 8 x.1), x.2))
  | .int16 =>
      (readUIntLE bytes p 2).map (fun x => (.vint (decodeTC 16 x.1), x.2))
  | .uint16 => (readUIntLE bytes p 2).map (fun x => (.vint (x.1 : Int), x.2))
  | .int32 =>
      (readUIntLE bytes p 4).map (fun x => (.vint (decodeTC 32 x.1), x.2))
  | .uint32 => (readUIntLE bytes p 4).map (fun x => (.vint (x.1 : Int), x.2))
  | .float32 => (readUIntLE bytes p 4).map (fun x => (.vfloat x.1, x.2))
  | .float64 => (readUIntLE bytes p 8).map (fun x => (.vfloat x.1, x.2))
  | .int64 =>
      (readUIntLE bytes p 8).map (fun x => (.vbig (decodeTC 64 x.1), x.2))
  | .uint64 => (readUIntLE bytes p 8).map (fun x => (.vbig (x.1 : Int), x.2))
  | .str | .wstr =>
      match readUIntLE bytes p 4 with
      | none => none
      | some (len, p1) =>
          match readBytes bytes p1 len with
          | none => none
          | some bs => some (.vstr (bs.take (len - 1)), p1 + len)

/-- Range conformance of a value to a primitive tag: the value has the tag's
local representation and lies in the tag's wire range. -/
def conformsPrim (t : PrimTag) (v : RosValue) : Bool :=
  match t, v with
  | .bool, .vbool _ => true
  | .byte, .vint n | .char, .vint n | .uint8, .vint n =>
      decide (0 ≤ n) && decide (n < 256)
  | .int8, .vint n => decide (-128 ≤ n) && decide (n < 128)
  | .int16, .vint n => decide (-(2 ^ 15) ≤ n) && decide (n < 2 ^ 15)
  | .uint16, .vint n => decide (0 ≤ n) && decide (n < 2 ^ 16)
  | .int32, .vint n => decide (-(2 ^ 31) ≤ n) && decide (n < 2 ^ 31)
  | .uint32, .vint n => decide (0 ≤ n) && decide (n < 2 ^ 32)
  | .int64, .vbig n => decide (-(2 ^ 63) ≤ n) && decide (n < 2 ^ 63)
  | .uint64, .vbig n => decide (0 ≤ n) && decide (n < 2 ^ 64)
  | .float32, .vfloat b => decide (b < 2 ^ 32)
  | .float64, .vfloat b => decide (b < 2 ^ 64)
  | .str, .vstr bs | .wstr, .vstr bs =>
      decide (bs.length + 1 < 2 ^ 32) && bs.all (fun b => decide (b < 256))
  | _, _ => false

/-! ### Schema-level writer and reader

The writer returns `Except`; a thrown `Error` is modelled by `.error p`
where `p` is the list of bytes the failing node had appended to the buffer
before throwing (the fixed-array length check throws before writing any
element, so there `p = []`). -/

/-- Write a list of values back-to-back with the element writer `wr`,
threading the absolute offset. -/
def writeRep (wr : RosValue → Nat → Except (List Nat) (List Nat)) :
    List RosValue → Nat → Except (List Nat) (List Nat)
  | [], _ => .ok []
  | v :: vs, off =>
      match wr v off with
      | .error p => .error p
      | .ok out =>
          match writeRep wr vs (off + out.length) with
          | .error p => .error (out ++ p)
          | .ok out2 => .ok (out ++ out2)

/-- Read `n` consecutive values with the element reader `rd`, threading the
position. -/
def readRep (rd : Nat → Option (RosValue × Nat)) :
    Nat → Nat → Option (List RosValue × Nat)
  | 0, pos => some ([], pos)
  | n + 1, pos =>
      match rd pos with
      | none => none
      | some (v, p1) =>
          match readRep rd n p1 with
          | none => none
          | some (vs, p2) => some (v :: vs, p2)

/-- `input[key]` on the message value's object. -/
def lookupField (l : List (String × RosValue)) (k : String) :
    Option RosValue :=
  match l with
  | [] => none
  | (k2, v) :: rest => if k2 = k then some v else lookupField rest k

mutual
/-- `RosSchema._write` dispatch: primitive / array (`sequenceLength` prefix
for variable arrays, length check for fixed arrays) / message (zero-field
messages emit one zero byte; otherwise each field's value is written in
field order, looked up by field name). -/
def writeS : RosSchema → RosValue → Nat → Except (List Nat) (List Nat)
  | .prim t, v, off => .ok (writePrim t v off)
  | .arr elem none, v, off =>
      let vs := v.asArr
      let cnt := padBytes 4 off ++ natLE 4 vs.length
      match writeRep (fun x o => writeS elem x o) vs (off + cnt.length) with
      | .error p => .error (cnt ++ p)
      | .ok out => .ok (cnt ++ out)
  | .arr elem (some k), v, off =>
      let vs := v.asArr
      if vs.length = k then writeRep (fun x o => writeS elem x o) vs off
      else .error []
  | .msg _ .nil, _, _ => .ok [0]
  | .msg _ (.cons k s fs), v, off => writeFields (.cons k s fs) v.asMsg off

/-- Iterate a non-empty field list, writing `input[key]` for each field. -/
def writeFields :
    FieldList → List (String × RosValue) → Nat → Except (List Nat) (List Nat)
  | .nil, _, _ => .ok []
  | .cons k s fs, obj, off =>
      match writeS s ((lookupField obj k).getD (.vint 0)) off with
      | .error p => .error p
      | .ok out =>
          match writeFields fs obj (off + out.length) with
          | .error p => .error (out ++ p)
          | .ok out2 => .ok (out ++ out2)
end

mutual
/-- `RosSchema._read` dispatch, mirroring `writeS`. -/
def readS : RosSchema → List Nat → Nat → Option (RosValue × Nat)
  | .prim t, bytes, pos => readPrim t bytes pos
  | .arr elem none, bytes, pos =>
      let p := pos + alignPad 4 pos
      (match readUIntLE bytes p 4 with
       | none => none
       | some (cnt, p1) =>
           match readRep (fun q => readS elem bytes q) cnt p1 with
           | none => none
           | some (vs, p2) => some (.varr vs, p2))
  | .arr elem (some kk), bytes, pos =>
      (match readRep (fun q => readS elem bytes q) kk pos with
       | none => none
       | some (vs, p2) => some (.varr vs, p2))
  | .msg _ .nil, bytes, pos =>
      (match readBytes bytes pos 1 with
       | none => none
       | some _ => some (.vmsg [], pos + 1))
  | .msg _ (.cons k s fs), bytes, pos =>
      (match readFields (.cons k s fs) bytes pos with
       | none => none
       | some (l, p2) => some (.vmsg l, p2))

/-- Read each field of a non-empty field list in order. -/
def readFields :
    FieldList → List Nat → Nat → Option (List (String × RosValue) × Nat)
  | .nil, _, pos => some ([], pos)
  | .cons k s fs, bytes, pos =>
      match readS s bytes pos with
      | none => none
      | some (v, p1) =>
          match readFields fs bytes p1 with
          | none => none
          | some (l, p2) => some ((k, v) :: l, p2)
end

mutual
/-- Value conformance to a schema (ranges for primitives; element count
below `2 ^ 32` and declared length for arrays; field names matching the
schema's in order for messages). -/
def conforms : RosSchema → RosValue → Bool
  | .prim t, v => conformsPrim t v
  | .arr elem none, .varr vs =>
      decide (vs.length < 2 ^ 32) && vs.all (fun x => conforms elem x)
  | .arr elem (some k), .varr vs =>
      decide (vs.length = k) && vs.all (fun x => conforms elem x)
  | .msg _ fs, .vmsg l => conformsFields fs l
  | _, _ => false

/-- Field-wise conformance of a message object to a field list. -/
def conformsFields : FieldList → List (String × RosValue) → Bool
  | .nil, [] => true
  | .cons k s fs, (k2, v) :: l =>
      decide (k2 = k) && conforms s v && conformsFields fs l
  | _, _ => false
end

/-- The names of a field list, in declaration order. -/
def fieldNames : FieldList → List String
  | .nil => []
  | .cons k _ fs => k :: fieldNames fs

/-- No string occurs twice in the list. -/
def distinctNames : List String → Bool
  | [] => true
  | k :: ks => decide (k ∉ ks) && distinctNames ks

mutual
/-- Schema well-formedness: corresponds to being constructible by the
source's constructors: fixed array lengths are positive
(`RosArraySchema.constructor` validates this) and message shapes are
objects, whose keys are distinct. -/
def wfS : RosSchema → Bool
  | .prim _ => true
  | .arr elem none => wfS elem
  | .arr elem (some k) => decide (0 < k) && wfS elem
  | .msg _ fs => distinctNames (fieldNames fs) && wfFields fs

/-- Well-formedness of every schema in a field list. -/
def wfFields : FieldList → Bool
  | .nil => true
  | .cons _ s fs => wfS s && wfFields fs
end

/-- `serialize`: a fresh `CdrWriter` starts with the 4-byte envelope header
`00 01 00 00`, then the schema's write runs at offset 4. -/
def serializeS (schema : RosSchema) (v : RosValue) :
    Except (List Nat) (List Nat) :=
  match writeS schema v 4 with
  | .error p => .error ([0, 1, 0, 0] ++ p)
  | .ok out => .ok ([0, 1, 0, 0] ++ out)

/-- `deserialize`: a `CdrReader` consumes the 4-byte envelope header, then
the schema's read runs at position 4; trailing bytes are ignored. -/
def deserializeS (schema : RosSchema) (bytes : List Nat) : Option RosValue :=
  if 4 ≤ bytes.length then (readS schema bytes 4).map (·.1) else none

/-- The key/value lookups that a message write performs: each field's value
as looked up in the object `obj` is the positionally corresponding value of
`l`. -/
def LookupsAgree (obj : List (String × RosValue)) :
    FieldList → List (String × RosValue) → Prop
  | .nil, [] => True
  | .cons k _ fs, (k2, v) :: l =>
      k2 = k ∧ lookupField obj k = some v ∧ LookupsAgree obj fs l
  | _, _ => False


/-- Element round-trip property: writing at any offset succeeds and reading
the written bytes back at the same offset, with arbitrary surrounding
bytes, returns the value and consumes exactly the written bytes. -/
def ElemRT (s : RosSchema) (v : RosValue) : Prop :=
  ∀ pre rest : List Nat, ∃ out : List Nat,
    writeS s v pre.length = .ok out ∧
    readS s (pre ++ (out ++ rest)) pre.length
      = some (v, pre.length + out.length)


/-! ### Session client (`RosCdrClient`, the call-id-keyed client source file)

The client is single-threaded and event-driven; each method and each
incoming-frame handler is modelled as a pure function from the client state
(the two correlation tables, the subscription table and the call-id counter)
to a new state plus the ordered list of observable actions it performs
(frames sent, promises resolved or rejected, subscription callbacks
invoked).  Promise resolvers, subscription callbacks, abort reasons and
thrown send errors are identified by opaque numeric tokens.  A channel
`send` that throws synchronously is modelled by the `sendOk : Bool`
parameter: when false, `send` throws `sendErr` and no frame goes out. -/

/-- The three creation operations of a `CreateRequest`. -/
inductive CreateOp where
  | createPublisher
  | createSubscription
  | createServiceClient
deriving DecidableEq, Repr

/-- `CreateRequest{call_id, op, name, type, qos}`; the QoS profile is
forwarded opaquely and is modelled as a token. -/
structure CreateRequest where
  call_id : Nat
  op : CreateOp
  name : String
  ty : String
  qos : Nat
deriving DecidableEq, Repr

/-- `CreateResponse{id, call_id}` as produced by `parseTextPayload`. -/
structure CreateResponse where
  id : Nat
  call_id : Nat
deriving DecidableEq, Repr

/-- An outgoing text (control) frame. -/
inductive TextFrame where
  | createReq : CreateRequest → TextFrame
  | destroyReq : Nat → TextFrame
deriving DecidableEq, Repr

def OP_TOPIC : Nat := 0
def OP_SERVICE_REQUEST : Nat := 1
def OP_SERVICE_RESPONSE : Nat := 2

/-- Result of `parseBinaryPayload`. -/
inductive BinMsg where
  | topic : Nat → List Nat → BinMsg
  | serviceResponse : Nat → List Nat → BinMsg
deriving DecidableEq, Repr

/-- `parseBinaryPayload`: frames shorter than 5 bytes
are rejected; opcode is byte 0; TOPIC and SERVICE_RESPONSE carry a 4-byte
little-endian id at byte 1 and the payload from byte 5; any other opcode is
rejected. -/
def parseBinaryPayload (buffer : List Nat) : Option BinMsg :=
  if buffer.length < 5 then none
  else
    let opcode := buffer.headD 0
    if opcode = OP_TOPIC then
      some (.topic (natFromLE ((buffer.drop 1).take 4)) (buffer.drop 5))
    else if opcode = OP_SERVICE_RESPONSE then
      some (.serviceResponse (natFromLE ((buffer.drop 1).take 4))
        (buffer.drop 5))
    else none

/-- Observable actions of a client operation, in program order. -/
inductive Act where
  | sendText : TextFrame → Act
  | sendBinary : List Nat → Act
  | resolveCreate : Nat → Nat → Act
  | resolveService : Nat → List Nat → Act
  | rejectP : Nat → Nat → Act
  | invokeSub : Nat → List Nat → Act
deriving DecidableEq, Repr

/-- The mutable state of a `RosCdrClient`: `#pendingCreates`,
`#subscriptions`, `#serviceResponses` (JavaScript `Map`s, modelled as
association lists with unique keys) and `#nextCallId`. -/
structure ClientState where
  pendingCreates : List (Nat × Nat)
  subscriptions : List (Nat × Nat)
  serviceResponses : List (Nat × Nat)
  nextCallId : Nat
deriving DecidableEq, Repr

/-- `Map.get`. -/
def mapGet (m : List (Nat × Nat)) (k : Nat) : Option Nat :=
  match m with
  | [] => none
  | (k2, v) :: rest => if k2 = k then some v else mapGet rest k

/-- `Map.set`: replace in place if the key exists, else append. -/
def mapSet (m : List (Nat × Nat)) (k v : Nat) : List (Nat × Nat) :=
  match m with
  | [] => [(k, v)]
  | (k2, v2) :: rest =>
      if k2 = k then (k2, v) :: rest else (k2, v2) :: mapSet rest k v

/-- `Map.delete`: a `Map` holds each key at most once, so removing every
entry with the key equals removing the key. -/
def mapDelete (m : List (Nat × Nat)) (k : Nat) : List (Nat × Nat) :=
  m.filter (fun kv => kv.1 != k)

/-- `Map.has` (also the boolean result of `Map.delete`). -/
def mapHas (m : List (Nat × Nat)) (k : Nat) : Bool :=
  (mapGet m k).isSome

/-- `RosCdrClient.#sendCreateRequest`: an already-aborted
signal rejects immediately with the signal reason, before any send and
before any table registration; otherwise the resolver is registered under
the request's call id and the frame is sent, a synchronous send failure
rejecting the just-created promise (the registered entry is not removed). -/
def sendCreateRequest (st : ClientState) (req : CreateRequest)
    (promise : Nat) (aborted : Bool) (reason : Nat) (sendOk : Bool)
    (sendErr : Nat) : ClientState × List Act :=
  if aborted then
    (st, [.rejectP promise reason])
  else
    let st2 := { st with
      pendingCreates := mapSet st.pendingCreates req.call_id promise }
    if sendOk then
      (st2, [.sendText (.createReq req)])
    else
      (st2, [.rejectP promise sendErr])

/-- `RosCdrClient.createPublisher`: allocates the call id
(the counter increments before the abort check inside
`#sendCreateRequest`), then delegates. -/
def createPublisher (st : ClientState) (name ty : String) (qos : Nat)
    (promise : Nat) (aborted : Bool) (reason : Nat) (sendOk : Bool)
    (sendErr : Nat) : ClientState × List Act :=
  let callId := st.nextCallId
  sendCreateRequest { st with nextCallId := callId + 1 }
    ⟨callId, .createPublisher, name, ty, qos⟩ promise aborted reason sendOk
    sendErr

/-- `RosCdrClient.createSubscription`, up to its `await`:
identical to `createPublisher` with op `create_subscription`.  (After the
await resolves with the assigned id, the callback is installed by
`installSubscription`.) -/
def createSubscription (st : ClientState) (name ty : String) (qos : Nat)
    (promise : Nat) (aborted : Bool) (reason : Nat) (sendOk : Bool)
    (sendErr : Nat) : ClientState × List Act :=
  let callId := st.nextCallId
  sendCreateRequest { st with nextCallId := callId + 1 }
    ⟨callId, .createSubscription, name, ty, qos⟩ promise aborted reason
    sendOk sendErr

/-- `RosCdrClient.createServiceClient`. -/
def createServiceClient (st : ClientState) (name ty : String) (qos : Nat)
    (promise : Nat) (aborted : Bool) (reason : Nat) (sendOk : Bool)
    (sendErr : Nat) : ClientState × List Act :=
  let callId := st.nextCallId
  sendCreateRequest { st with nextCallId := callId + 1 }
    ⟨callId, .createServiceClient, name, ty, qos⟩ promise aborted reason
    sendOk sendErr

/-- The continuation of `createSubscription` after its await resolves with
the assigned subscription id: `this.#subscriptions.set(id, callback)`. -/
def installSubscription (st : ClientState) (id cb : Nat) : ClientState :=
  { st with subscriptions := mapSet st.subscriptions id cb }

/-- `RosCdrClient.publish`: one TOPIC frame
(opcode, 4-byte little-endian publisher id, payload), fire and forget. -/
def publish (st : ClientState) (id : Nat) (message : List Nat) :
    ClientState × List Act :=
  (st, [.sendBinary ([OP_TOPIC] ++ natLE 4 id ++ message)])

/-- `RosCdrClient.callService`: an already-aborted signal
rejects immediately (the call-id counter is only incremented after that
check); otherwise a fresh call id is allocated, the resolver registered,
and one SERVICE_REQUEST frame sent, a synchronous send failure rejecting
the promise (the registered entry is not removed). -/
def callService (st : ClientState) (id : Nat) (request : List Nat)
    (promise : Nat) (aborted : Bool) (reason : Nat) (sendOk : Bool)
    (sendErr : Nat) : ClientState × List Act :=
  if aborted then
    (st, [.rejectP promise reason])
  else
    let callId := st.nextCallId
    let payload :=
      [OP_SERVICE_REQUEST] ++ natLE 4 id ++ natLE 4 callId ++ request
    let st2 := { st with
      nextCallId := callId + 1,
      serviceResponses := mapSet st.serviceResponses callId promise }
    if sendOk then
      (st2, [.sendBinary payload])
    else
      (st2, [.rejectP promise sendErr])

/-- `RosCdrClient.destroy`: builds the DestroyRequest,
sends it, then deletes the local subscription callback.  If the send
throws, the exception propagates and the deletion is never reached; the
third component records whether the call threw. -/
def destroy (st : ClientState) (id : Nat) (sendOk : Bool) :
    ClientState × List Act × Bool :=
  if sendOk then
    ({ st with subscriptions := mapDelete st.subscriptions id },
     [.sendText (.destroyReq id)], false)
  else
    (st, [], true)

/-- The `onAbort` listener registered by `#sendCreateRequest` for call id
`callId`: `if (this.#pendingCreates.delete(callId)) reject(reason)`. -/
def fireCreateAbort (st : ClientState) (callId promise reason : Nat) :
    ClientState × List Act :=
  if mapHas st.pendingCreates callId then
    ({ st with pendingCreates := mapDelete st.pendingCreates callId },
     [.rejectP promise reason])
  else (st, [])

/-- The `onAbort` listener registered by `callService` for call id
`callId`: `if (this.#serviceResponses.delete(callId)) reject(reason)`. -/
def fireServiceAbort (st : ClientState) (callId promise reason : Nat) :
    ClientState × List Act :=
  if mapHas st.serviceResponses callId then
    ({ st with serviceResponses := mapDelete st.serviceResponses callId },
     [.rejectP promise reason])
  else (st, [])

/-- `RosCdrClient.#onTextPayload` after `parseTextPayload`
(`none` models an unparseable control payload, which is dropped): a parsed
CreateResponse resolves and removes the pending create whose call id
matches, and is dropped when none matches. -/
def onTextPayload (st : ClientState) (parsed : Option CreateResponse) :
    ClientState × List Act :=
  match parsed with
  | none => (st, [])
  | some r =>
      match mapGet st.pendingCreates r.call_id with
      | none => (st, [])
      | some promise =>
          ({ st with
             pendingCreates := mapDelete st.pendingCreates r.call_id },
           [.resolveCreate promise r.id])

/-- `RosCdrClient.#onBinaryPayload`: unparseable frames
are dropped; TOPIC frames invoke the matching subscription callback (or
are dropped); SERVICE_RESPONSE frames resolve and remove the matching
pending service call (or are dropped). -/
def onBinaryPayload (st : ClientState) (buffer : List Nat) :
    ClientState × List Act :=
  match parseBinaryPayload buffer with
  | none => (st, [])
  | some (.topic id payload) =>
      match mapGet st.subscriptions id with
      | none => (st, [])
      | some cb => (st, [.invokeSub cb payload])
  | some (.serviceResponse callId payload) =>
      match mapGet st.serviceResponses callId with
      | none => (st, [])
      | some promise =>
          ({ st with
             serviceResponses := mapDelete st.serviceResponses callId },
           [.resolveService promise payload])

/-- Minimum frame length per opcode, from the spec's frame table
(TOPIC 5, SERVICE_REQUEST 9, SERVICE_RESPONSE 5). -/
def minFrameLen (opcode : Nat) : Nat :=
  if opcode = OP_SERVICE_REQUEST then 9 else 5


/-! ### Round-trip lemmas -/

@[simp] theorem natLE_length (w n : Nat) : (natLE w n).length = w := by
  induction w generalizing n with
  | zero => rfl
  | succ w ih => simp [natLE, ih]

theorem natLE_lt (w n : Nat) : ∀ b ∈ natLE w n, b < 256 := by
  induction w generalizing n with
  | zero => intro b hb; simp [natLE] at hb
  | succ w ih =>
    intro b hb
    simp only [natLE, List.mem_cons] at hb
    rcases hb with h | h
    · omega
    · exact ih _ b h

theorem natFromLE_natLE (w n : Nat) :
    natFromLE (natLE w n) = n % 2 ^ (8 * w) := by
  induction w generalizing n with
  | zero => simp [natLE, natFromLE, Nat.mod_one]
  | succ w ih =>
    have h256 : (2 : Nat) ^ (8 * (w + 1)) = 256 * 2 ^ (8 * w) := by
      rw [show 8 * (w + 1) = 8 * w + 8 by ring, Nat.pow_add]
      norm_num
      ring
    simp only [natLE, natFromLE]
    rw [ih, h256, Nat.mod_mul]
    generalize n / 256 % 2 ^ (8 * w) = m
    omega

theorem natFromLE_natLE_of_lt {w n : Nat} (h : n < 2 ^ (8 * w)) :
    natFromLE (natLE w n) = n := by
  rw [natFromLE_natLE, Nat.mod_eq_of_lt h]

/-- Two's-complement round-trip on `8 * w` bits for an integer in range. -/
theorem decodeTC_intLE (w : Nat) (hw : 0 < w) (v : Int)
    (h1 : -((2 ^ (8 * w - 1) : Nat) : Int) ≤ v)
    (h2 : v < ((2 ^ (8 * w - 1) : Nat) : Int)) :
    decodeTC (8 * w) (natFromLE (intLE w v)) = v := by
  set b := 8 * w with hb
  have hsplit : (2 : Nat) ^ b = 2 * 2 ^ (b - 1) := by
    conv_lhs => rw [show b = (b - 1) + 1 by omega]
    rw [Nat.pow_succ]
    ring
  set H : Nat := 2 ^ (b - 1) with hH
  set M : Int := ((2 ^ b : Nat) : Int) with hM
  have h2H : M = 2 * (H : Int) := by rw [hM]; exact_mod_cast hsplit
  have hHpos : 0 < (H : Int) := by positivity
  have hmod : v % M = if 0 ≤ v then v else v + M := by
    split
    · next hv => exact Int.emod_eq_of_lt hv (by omega)
    · next hv =>
      have heq : (v + M * 1) % M = v % M := Int.add_mul_emod_self_left v M 1
      rw [mul_one] at heq
      rw [← heq]
      exact Int.emod_eq_of_lt (by omega) (by omega)
  have hnn : 0 ≤ v % M := Int.emod_nonneg v (by omega)
  have hlt : v % M < M := Int.emod_lt_of_pos v (by omega)
  have htn : (((v % M).toNat : Nat) : Int) = v % M := Int.toNat_of_nonneg hnn
  have hlt2 : (v % M).toNat < 2 ^ (8 * w) := by
    rw [← hb]
    omega
  simp only [intLE]
  rw [← hb, ← hM, natFromLE_natLE_of_lt hlt2]
  rcases le_or_lt 0 v with hv | hv
  · rw [if_pos hv] at hmod
    unfold decodeTC
    split <;> omega
  · rw [if_neg (by omega)] at hmod
    unfold decodeTC
    split <;> omega

@[simp] theorem alignPad_one (off : Nat) : alignPad 1 off = 0 := by
  simp [alignPad, Nat.mod_one]

@[simp] theorem padBytes_length (w off : Nat) :
    (padBytes w off).length = alignPad w off := by
  simp [padBytes]

theorem map_mod_id {bs : List Nat} (h : ∀ b ∈ bs, b < 256) :
    bs.map (· % 256) = bs := by
  induction bs with
  | nil => rfl
  | cons b bs ih =>
      simp only [List.map_cons, List.cons.injEq]
      constructor
      · exact Nat.mod_eq_of_lt (h b (by simp))
      · exact ih (fun x hx => h x (by simp [hx]))

theorem readBytes_at (pre l rest : List Nat) (w : Nat) (h : l.length = w) :
    readBytes (pre ++ (l ++ rest)) pre.length w = some l := by
  unfold readBytes
  rw [if_pos]
  · rw [show pre ++ (l ++ rest) = pre ++ (l ++ rest) from rfl]
    rw [List.drop_left, ← h, List.take_left]
  · simp [List.length_append]
    omega

theorem readUIntLE_at (pre l rest : List Nat) (w : Nat) (h : l.length = w) :
    readUIntLE (pre ++ (l ++ rest)) pre.length w
      = some (natFromLE l, pre.length + w) := by
  unfold readUIntLE
  rw [readBytes_at pre l rest w h]
  rfl

theorem readUIntLE_aligned (pre core rest : List Nat) (w a : Nat)
    (h : core.length = w) :
    readUIntLE (pre ++ (padBytes a pre.length ++ (core ++ rest)))
        (pre.length + alignPad a pre.length) w
      = some (natFromLE core, pre.length + alignPad a pre.length + w) := by
  have hassoc : pre ++ (padBytes a pre.length ++ (core ++ rest))
      = (pre ++ padBytes a pre.length) ++ (core ++ rest) := by
    simp [List.append_assoc]
  have hlen : (pre ++ padBytes a pre.length).length
      = pre.length + alignPad a pre.length := by
    simp
  rw [hassoc]
  have h2 := readUIntLE_at (pre ++ padBytes a pre.length) core rest w h
  rw [hlen] at h2
  exact h2

theorem natFromLE_intLE_of_nonneg (w : Nat) (n : Int) (h0 : 0 ≤ n)
    (h1 : n < ((2 ^ (8 * w) : Nat) : Int)) :
    ((natFromLE (intLE w n) : Nat) : Int) = n := by
  unfold intLE
  rw [Int.emod_eq_of_lt h0 h1]
  rw [natFromLE_natLE_of_lt (by omega)]
  omega

theorem decodeTC_intLE_1 (n : Int) (h1 : -128 ≤ n) (h2 : n < 128) :
    decodeTC 8 (natFromLE (intLE 1 n)) = n := by
  have hc : ((2 ^ (8 * 1 - 1) : Nat) : Int) = 128 := by norm_num
  have h := decodeTC_intLE 1 (by norm_num) n (by rw [hc]; omega)
    (by rw [hc]; omega)
  norm_num at h
  exact h

theorem decodeTC_intLE_2 (n : Int) (h1 : -(2 ^ 15) ≤ n) (h2 : n < 2 ^ 15) :
    decodeTC 16 (natFromLE (intLE 2 n)) = n := by
  have hc : ((2 ^ (8 * 2 - 1) : Nat) : Int) = 2 ^ 15 := by norm_num
  have h := decodeTC_intLE 2 (by norm_num) n (by rw [hc]; omega)
    (by rw [hc]; omega)
  norm_num at h
  exact h

theorem decodeTC_intLE_4 (n : Int) (h1 : -(2 ^ 31) ≤ n) (h2 : n < 2 ^ 31) :
    decodeTC 32 (natFromLE (intLE 4 n)) = n := by
  have hc : ((2 ^ (8 * 4 - 1) : Nat) : Int) = 2 ^ 31 := by norm_num
  have h := decodeTC_intLE 4 (by norm_num) n (by rw [hc]; omega)
    (by rw [hc]; omega)
  norm_num at h
  exact h

theorem decodeTC_intLE_8 (n : Int) (h1 : -(2 ^ 63) ≤ n) (h2 : n < 2 ^ 63) :
    decodeTC 64 (natFromLE (intLE 8 n)) = n := by
  have hc : ((2 ^ (8 * 8 - 1) : Nat) : Int) = 2 ^ 63 := by norm_num
  have h := decodeTC_intLE 8 (by norm_num) n (by rw [hc]; omega)
    (by rw [hc]; omega)
  norm_num at h
  exact h

theorem readBytes_at2 (pre l rest : List Nat) (w : Nat) (h : l.length = w)
    (bytes : List Nat) (hbytes : bytes = pre ++ (l ++ rest)) (pos : Nat)
    (hpos : pos = pre.length) :
    readBytes bytes pos w = some l := by
  rw [hbytes, hpos]
  exact readBytes_at pre l rest w h

/-- Primitive round-trip: reading back a written primitive at the same
absolute offset returns the original value and consumes exactly the
written bytes, for any surrounding bytes. -/
theorem readPrim_writePrim (t : PrimTag) (v : RosValue)
    (h : conformsPrim t v = true) (pre rest : List Nat) :
    readPrim t (pre ++ (writePrim t v pre.length ++ rest)) pre.length
      = some (v, pre.length + (writePrim t v pre.length).length) := by
  cases t with
  | bool =>
      cases v <;> simp [conformsPrim] at h
      next b =>
      simp only [writePrim, corePrim, primAlign, RosValue.asBool]
      simp only [readPrim, primAlign]
      simp only [List.append_assoc]
      rw [readUIntLE_aligned pre [if b then 1 else 0] rest 1 1
        (by cases b <;> rfl)]
      cases b <;> simp [natFromLE]
  | byte =>
      cases v <;> simp [conformsPrim] at h
      next n =>
      obtain ⟨h1, h2⟩ := h
      simp only [writePrim, corePrim, primAlign, RosValue.asNum]
      simp only [readPrim, primAlign]
      simp only [List.append_assoc]
      rw [readUIntLE_aligned pre (intLE 1 n) rest 1 1 (by simp [intLE])]
      have hv := natFromLE_intLE_of_nonneg 1 n h1
        (by have hc : ((2 ^ (8 * 1) : Nat) : Int) = 256 := by norm_num
            omega)
      simp only [Option.map_some', hv, Option.some.injEq, Prod.mk.injEq,
        List.length_append, padBytes_length, true_and]
      simp only [intLE, natLE_length]
      omega
  | char =>
      cases v <;> simp [conformsPrim] at h
      next n =>
      obtain ⟨h1, h2⟩ := h
      simp only [writePrim, corePrim, primAlign, RosValue.asNum]
      simp only [readPrim, primAlign]
      simp only [List.append_assoc]
      rw [readUIntLE_aligned pre (intLE 1 n) rest 1 1 (by simp [intLE])]
      have hv := natFromLE_intLE_of_nonneg 1 n h1
        (by have hc : ((2 ^ (8 * 1) : Nat) : Int) = 256 := by norm_num
            omega)
      simp only [Option.map_some', hv, Option.some.injEq, Prod.mk.injEq,
        List.length_append, padBytes_length, true_and]
      simp only [intLE, natLE_length]
      omega
  | uint8 =>
      cases v <;> simp [conformsPrim] at h
      next n =>
      obtain ⟨h1, h2⟩ := h
      simp only [writePrim, corePrim, primAlign, RosValue.asNum]
      simp only [readPrim, primAlign]
      simp only [List.append_assoc]
      rw [readUIntLE_aligned pre (intLE 1 n) rest 1 1 (by simp [intLE])]
      have hv := natFromLE_intLE_of_nonneg 1 n h1
        (by have hc : ((2 ^ (8 * 1) : Nat) : Int) = 256 := by norm_num
            omega)
      simp only [Option.map_some', hv, Option.some.injEq, Prod.mk.injEq,
        List.length_append, padBytes_length, true_and]
      simp only [intLE, natLE_length]
      omega
  | int8 =>
      cases v <;> simp [conformsPrim] at h
      next n =>
      obtain ⟨h1, h2⟩ := h
      simp only [writePrim, corePrim, primAlign, RosValue.asNum]
      simp only [readPrim, primAlign]
      simp only [List.append_assoc]
      rw [readUIntLE_aligned pre (intLE 1 n) rest 1 1 (by simp [intLE])]
      have hv := decodeTC_intLE_1 n h1 h2
      simp only [Option.map_some', hv, Option.some.injEq, Prod.mk.injEq,
        List.length_append, padBytes_length, true_and]
      simp only [intLE, natLE_length]
      omega
  | int16 =>
      cases v <;> simp [conformsPrim] at h
      next n =>
      obtain ⟨h1, h2⟩ := h
      simp only [writePrim, corePrim, primAlign, RosValue.asNum]
      simp only [readPrim, primAlign]
      simp only [List.append_assoc]
      rw [readUIntLE_aligned pre (intLE 2 n) rest 2 2 (by simp [intLE])]
      have hv := decodeTC_intLE_2 n h1 h2
      simp only [Option.map_some', hv, Option.some.injEq, Prod.mk.injEq,
        List.length_append, padBytes_length, true_and]
      simp only [intLE, natLE_length]
      omega
  | uint16 =>
      cases v <;> simp [conformsPrim] at h
      next n =>
      obtain ⟨h1, h2⟩ := h
      simp only [writePrim, corePrim, primAlign, RosValue.asNum]
      simp only [readPrim, primAlign]
      simp only [List.append_assoc]
      rw [readUIntLE_aligned pre (intLE 2 n) rest 2 2 (by simp [intLE])]
      have hv := natFromLE_intLE_of_nonneg 2 n h1
        (by have hc : ((2 ^ (8 * 2) : Nat) : Int) = 2 ^ 16 := by norm_num
            omega)
      simp only [Option.map_some', hv, Option.some.injEq, Prod.mk.injEq,
        List.length_append, padBytes_length, true_and]
      simp only [intLE, natLE_length]
      omega
  | int32 =>
      cases v <;> simp [conformsPrim] at h
      next n =>
      obtain ⟨h1, h2⟩ := h
      simp only [writePrim, corePrim, primAlign, RosValue.asNum]
      simp only [readPrim, primAlign]
      simp only [List.append_assoc]
      rw [readUIntLE_aligned pre (intLE 4 n) rest 4 4 (by simp [intLE])]
      have hv := decodeTC_intLE_4 n h1 h2
      simp only [Option.map_some', hv, Option.some.injEq, Prod.mk.injEq,
        List.length_append, padBytes_length, true_and]
      simp only [intLE, natLE_length]
      omega
  | uint32 =>
      cases v <;> simp [conformsPrim] at h
      next n =>
      obtain ⟨h1, h2⟩ := h
      simp only [writePrim, corePrim, primAlign, RosValue.asNum]
      simp only [readPrim, primAlign]
      simp only [List.append_assoc]
      rw [readUIntLE_aligned pre (intLE 4 n) rest 4 4 (by simp [intLE])]
      have hv := natFromLE_intLE_of_nonneg 4 n h1
        (by have hc : ((2 ^ (8 * 4) : Nat) : Int) = 2 ^ 32 := by norm_num
            omega)
      simp only [Option.map_some', hv, Option.some.injEq, Prod.mk.injEq,
        List.length_append, padBytes_length, true_and]
      simp only [intLE, natLE_length]
      omega
  | int64 =>
      cases v <;> simp [conformsPrim] at h
      next n =>
      obtain ⟨h1, h2⟩ := h
      simp only [writePrim, corePrim, primAlign, RosValue.asBig]
      simp only [readPrim, primAlign]
      simp only [List.append_assoc]
      rw [readUIntLE_aligned pre (intLE 8 n) rest 8 8 (by simp [intLE])]
      have hv := decodeTC_intLE_8 n h1 h2
      simp only [Option.map_some', hv, Option.some.injEq, Prod.mk.injEq,
        List.length_append, padBytes_length, true_and]
      simp only [intLE, natLE_length]
      omega
  | uint64 =>
      cases v <;> simp [conformsPrim] at h
      next n =>
      obtain ⟨h1, h2⟩ := h
      simp only [writePrim, corePrim, primAlign, RosValue.asBig]
      simp only [readPrim, primAlign]
      simp only [List.append_assoc]
      rw [readUIntLE_aligned pre (intLE 8 n) rest 8 8 (by simp [intLE])]
      have hv := natFromLE_intLE_of_nonneg 8 n h1
        (by have hc : ((2 ^ (8 * 8) : Nat) : Int) = 2 ^ 64 := by norm_num
            omega)
      simp only [Option.map_some', hv, Option.some.injEq, Prod.mk.injEq,
        List.length_append, padBytes_length, true_and]
      simp only [intLE, natLE_length]
      omega
  | float32 =>
      cases v <;> simp [conformsPrim] at h
      next bits =>
      simp only [writePrim, corePrim, primAlign, RosValue.asBits]
      simp only [readPrim, primAlign]
      simp only [List.append_assoc]
      rw [readUIntLE_aligned pre (natLE 4 bits) rest 4 4 (by simp)]
      have hv : natFromLE (natLE 4 bits) = bits := by
        apply natFromLE_natLE_of_lt
        have hc : (2 : Nat) ^ (8 * 4) = 2 ^ 32 := by norm_num
        omega
      simp only [Option.map_some', hv, Option.some.injEq, Prod.mk.injEq,
        List.length_append, padBytes_length, natLE_length, true_and]
      omega
  | float64 =>
      cases v <;> simp [conformsPrim] at h
      next bits =>
      simp only [writePrim, corePrim, primAlign, RosValue.asBits]
      simp only [readPrim, primAlign]
      simp only [List.append_assoc]
      rw [readUIntLE_aligned pre (natLE 8 bits) rest 8 8 (by simp)]
      have hv : natFromLE (natLE 8 bits) = bits := by
        apply natFromLE_natLE_of_lt
        have hc : (2 : Nat) ^ (8 * 8) = 2 ^ 64 := by norm_num
        omega
      simp only [Option.map_some', hv, Option.some.injEq, Prod.mk.injEq,
        List.length_append, padBytes_length, natLE_length, true_and]
      omega
  | str =>
      cases v <;> simp [conformsPrim] at h
      next bs =>
      obtain ⟨h1, h2⟩ := h
      have hmap : bs.map (· % 256) = bs := map_mod_id h2
      simp only [writePrim, corePrim, primAlign, RosValue.asStr]
      simp only [readPrim, primAlign]
      simp only [List.append_assoc]
      rw [readUIntLE_aligned pre (natLE 4 (bs.length + 1))
        (bs.map (· % 256) ++ ([0] ++ rest)) 4 4 (by simp)]
      have hlen : natFromLE (natLE 4 (bs.length + 1)) = bs.length + 1 := by
        apply natFromLE_natLE_of_lt
        have hc : (2 : Nat) ^ (8 * 4) = 2 ^ 32 := by norm_num
        omega
      rw [hlen]
      dsimp only []
      have hread : readBytes
          (pre ++ (padBytes 4 pre.length ++ (natLE 4 (bs.length + 1)
            ++ (bs.map (· % 256) ++ ([0] ++ rest)))))
          (pre.length + alignPad 4 pre.length + 4) (bs.length + 1)
          = some (bs.map (· % 256) ++ [0]) := by
        apply readBytes_at2 (pre ++ (padBytes 4 pre.length
            ++ natLE 4 (bs.length + 1)))
          (bs.map (· % 256) ++ [0]) rest (bs.length + 1) (by simp)
        · simp [List.append_assoc]
        · simp
          omega
      rw [hread]
      simp only [Nat.add_sub_cancel]
      rw [List.take_left' (by simp), hmap]
      simp only [Option.some.injEq, Prod.mk.injEq, List.length_append,
        padBytes_length, natLE_length, List.length_map, List.length_cons,
        List.length_nil, true_and]
      omega
  | wstr =>
      cases v <;> simp [conformsPrim] at h
      next bs =>
      obtain ⟨h1, h2⟩ := h
      have hmap : bs.map (· % 256) = bs := map_mod_id h2
      simp only [writePrim, corePrim, primAlign, RosValue.asStr]
      simp only [readPrim, primAlign]
      simp only [List.append_assoc]
      rw [readUIntLE_aligned pre (natLE 4 (bs.length + 1))
        (bs.map (· % 256) ++ ([0] ++ rest)) 4 4 (by simp)]
      have hlen : natFromLE (natLE 4 (bs.length + 1)) = bs.length + 1 := by
        apply natFromLE_natLE_of_lt
        have hc : (2 : Nat) ^ (8 * 4) = 2 ^ 32 := by norm_num
        omega
      rw [hlen]
      dsimp only []
      have hread : readBytes
          (pre ++ (padBytes 4 pre.length ++ (natLE 4 (bs.length + 1)
            ++ (bs.map (· % 256) ++ ([0] ++ rest)))))
          (pre.length + alignPad 4 pre.length + 4) (bs.length + 1)
          = some (bs.map (· % 256) ++ [0]) := by
        apply readBytes_at2 (pre ++ (padBytes 4 pre.length
            ++ natLE 4 (bs.length + 1)))
          (bs.map (· % 256) ++ [0]) rest (bs.length + 1) (by simp)
        · simp [List.append_assoc]
        · simp
          omega
      rw [hread]
      simp only [Nat.add_sub_cancel]
      rw [List.take_left' (by simp), hmap]
      simp only [Option.some.injEq, Prod.mk.injEq, List.length_append,
        padBytes_length, natLE_length, List.length_map, List.length_cons,
        List.length_nil, true_and]
      omega

theorem lookupsAgree_cons (obj : List (String × RosValue)) (k0 : String)
    (v0 : RosValue) (fs : FieldList) (l : List (String × RosValue))
    (h : LookupsAgree obj fs l) (hk : k0 ∉ fieldNames fs) :
    LookupsAgree ((k0, v0) :: obj) fs l := by
  match fs, l, h with
  | .nil, [], _ => trivial
  | .nil, a :: l2, h => exact absurd h (by simp [LookupsAgree])
  | .cons k s fs2, [], h => exact absurd h (by simp [LookupsAgree])
  | .cons k s fs2, (k2, v) :: l2, ⟨h1, h2, h3⟩ =>
      simp only [fieldNames, List.mem_cons, not_or] at hk
      refine ⟨h1, ?_, lookupsAgree_cons obj k0 v0 fs2 l2 h3 hk.2⟩
      simp only [lookupField]
      rw [if_neg (fun hEq => hk.1 hEq)]
      exact h2

theorem lookupsAgree_self (fs : FieldList) (l : List (String × RosValue))
    (hc : conformsFields fs l = true)
    (hdis : distinctNames (fieldNames fs) = true) :
    LookupsAgree l fs l := by
  match fs, l with
  | .nil, [] => trivial
  | .nil, a :: l2 => simp [conformsFields] at hc
  | .cons k s fs2, [] => simp [conformsFields] at hc
  | .cons k s fs2, (k2, v) :: l2 =>
      simp only [conformsFields, Bool.and_eq_true, decide_eq_true_eq] at hc
      obtain ⟨⟨hk, hcv⟩, hc2⟩ := hc
      subst hk
      simp only [fieldNames, distinctNames, Bool.and_eq_true,
        decide_eq_true_eq] at hdis
      obtain ⟨hnotin, hdis2⟩ := hdis
      refine ⟨rfl, ?_, ?_⟩
      · simp [lookupField]
      · exact lookupsAgree_cons l2 k2 v fs2 l2
          (lookupsAgree_self fs2 l2 hc2 hdis2) hnotin

theorem elemsRT (elem : RosSchema) (vs : List RosValue)
    (IH : ∀ v ∈ vs, ElemRT elem v) :
    ∀ pre rest : List Nat, ∃ out : List Nat,
      writeRep (fun x o => writeS elem x o) vs pre.length = .ok out ∧
      readRep (fun q => readS elem (pre ++ (out ++ rest)) q) vs.length
          pre.length
        = some (vs, pre.length + out.length) := by
  induction vs with
  | nil =>
      intro pre rest
      exact ⟨[], rfl, by simp [readRep]⟩
  | cons v vs ih =>
      intro pre rest
      have IHv : ElemRT elem v := IH v (by simp)
      have IHvs : ∀ x ∈ vs, ElemRT elem x := fun x hx => IH x (by simp [hx])
      obtain ⟨out1, hw1, hdrop⟩ := IHv pre []
      obtain ⟨out2, hw2, hr2⟩ := ih IHvs (pre ++ out1) rest
      obtain ⟨out1b, hw1b, hr1⟩ := IHv pre (out2 ++ rest)
      rw [hw1] at hw1b
      injection hw1b with hout
      subst hout
      refine ⟨out1 ++ out2, ?_, ?_⟩
      · simp only [writeRep]
        rw [hw1]
        dsimp only []
        have hw2x : writeRep (fun x o => writeS elem x o) vs
            (pre.length + out1.length) = .ok out2 := by
          simpa using hw2
        rw [hw2x]
      · simp only [readRep, List.length_cons]
        simp only [List.append_assoc] at hr1 hr2 ⊢
        simp only [List.length_append] at hr2
        rw [hr1]
        dsimp only []
        rw [hr2]
        simp only [Option.some.injEq, Prod.mk.injEq, List.length_append,
          true_and]
        omega

mutual

theorem writeS_roundtrip (s : RosSchema) (v : RosValue)
    (hwf : wfS s = true) (hc : conforms s v = true) : ElemRT s v := by
  match s with
  | .prim t =>
      intro pre rest
      refine ⟨writePrim t v pre.length, rfl, ?_⟩
      exact readPrim_writePrim t v (by simpa [conforms] using hc) pre rest
  | .arr elem none =>
      cases v <;> simp [conforms] at hc
      next vs =>
      obtain ⟨hlen, hall⟩ := hc
      have IH : ∀ x ∈ vs, ElemRT elem x := fun x hx =>
        writeS_roundtrip elem x (by simpa [wfS] using hwf) (hall x hx)
      intro pre rest
      obtain ⟨out, hw, hr⟩ := elemsRT elem vs IH
        (pre ++ (padBytes 4 pre.length ++ natLE 4 vs.length)) rest
      refine ⟨(padBytes 4 pre.length ++ natLE 4 vs.length) ++ out, ?_, ?_⟩
      · simp only [writeS, RosValue.asArr]
        have hwx : writeRep (fun x o => writeS elem x o) vs
            (pre.length + (padBytes 4 pre.length ++ natLE 4 vs.length).length)
            = .ok out := by
          simpa using hw
        rw [List.length_append, padBytes_length, natLE_length] at hwx
        rw [show pre.length + (alignPad 4 pre.length + 4)
            = pre.length + alignPad 4 pre.length + 4 from by omega] at hwx
        simp only [List.length_append, padBytes_length, natLE_length]
        rw [show pre.length + (alignPad 4 pre.length + 4)
            = pre.length + alignPad 4 pre.length + 4 from by omega]
        rw [hwx]
      · simp only [readS]
        simp only [List.append_assoc] at hr ⊢
        rw [readUIntLE_aligned pre (natLE 4 vs.length) (out ++ rest) 4 4
          (by simp)]
        have hcnt : natFromLE (natLE 4 vs.length) = vs.length := by
          apply natFromLE_natLE_of_lt
          have hc32 : (2 : Nat) ^ (8 * 4) = 2 ^ 32 := by norm_num
          omega
        rw [hcnt]
        dsimp only []
        simp only [List.length_append, padBytes_length, natLE_length] at hr
        rw [show pre.length + (alignPad 4 pre.length + 4)
            = pre.length + alignPad 4 pre.length + 4 from by omega] at hr
        rw [hr]
        dsimp only []
        simp only [Option.some.injEq, Prod.mk.injEq, List.length_append,
          padBytes_length, natLE_length, true_and]
        omega
  | .arr elem (some kk) =>
      cases v <;> simp [conforms] at hc
      next vs =>
      obtain ⟨hlen, hall⟩ := hc
      have IH : ∀ x ∈ vs, ElemRT elem x := fun x hx =>
        writeS_roundtrip elem x (by simp [wfS] at hwf; exact hwf.2) (hall x hx)
      intro pre rest
      obtain ⟨out, hw, hr⟩ := elemsRT elem vs IH pre rest
      refine ⟨out, ?_, ?_⟩
      · simp only [writeS, RosValue.asArr]
        rw [if_pos hlen]
        exact hw
      · simp only [readS]
        rw [← hlen]
        rw [hr]
  | .msg name .nil =>
      cases v <;> simp only [conforms] at hc <;>
        try exact absurd hc Bool.false_ne_true
      next l =>
      have hl : l = [] := by
        cases l with
        | nil => rfl
        | cons a l2 => simp [conformsFields] at hc
      subst hl
      intro pre rest
      refine ⟨[0], rfl, ?_⟩
      simp only [readS]
      rw [readBytes_at pre [0] rest 1 rfl]
      dsimp only []
      simp
  | .msg name (.cons k0 s0 fs0) =>
      cases v <;> simp only [conforms] at hc <;>
        try exact absurd hc Bool.false_ne_true
      next l =>
      simp only [wfS, Bool.and_eq_true] at hwf
      obtain ⟨hdis, hwff⟩ := hwf
      have hlk := lookupsAgree_self (.cons k0 s0 fs0) l hc hdis
      have h2 := writeFields_roundtrip (.cons k0 s0 fs0) l l hwff hc hlk
      intro pre rest
      obtain ⟨out, hw, hr⟩ := h2 pre rest
      refine ⟨out, ?_, ?_⟩
      · simp only [writeS, RosValue.asMsg]
        exact hw
      · simp only [readS]
        rw [hr]

theorem writeFields_roundtrip (fs : FieldList)
    (l obj : List (String × RosValue))
    (hwf : wfFields fs = true) (hc : conformsFields fs l = true)
    (hlk : LookupsAgree obj fs l) :
    ∀ pre rest : List Nat, ∃ out : List Nat,
      writeFields fs obj pre.length = .ok out ∧
      readFields fs (pre ++ (out ++ rest)) pre.length
        = some (l, pre.length + out.length) := by
  match fs, l with
  | .nil, [] =>
      intro pre rest
      exact ⟨[], rfl, by simp [readFields]⟩
  | .nil, a :: l2 => simp [conformsFields] at hc
  | .cons k s fs2, [] => simp [conformsFields] at hc
  | .cons k s fs2, (k2, v) :: l2 =>
      simp only [conformsFields, Bool.and_eq_true, decide_eq_true_eq] at hc
      obtain ⟨⟨hkk, hcv⟩, hc2⟩ := hc
      obtain ⟨hk1, hk2, hlk2⟩ := hlk
      subst hk1
      simp only [wfFields, Bool.and_eq_true] at hwf
      obtain ⟨hwfs, hwf2⟩ := hwf
      have hes : ElemRT s v := writeS_roundtrip s v hwfs hcv
      intro pre rest
      obtain ⟨out1, hw1, hdrop⟩ := hes pre []
      obtain ⟨out2, hw2, hr2⟩ :=
        writeFields_roundtrip fs2 l2 obj hwf2 hc2 hlk2 (pre ++ out1) rest
      obtain ⟨out1b, hw1b, hr1⟩ := hes pre (out2 ++ rest)
      rw [hw1] at hw1b
      injection hw1b with hout
      subst hout
      refine ⟨out1 ++ out2, ?_, ?_⟩
      · simp only [writeFields]
        rw [hk2]
        dsimp only [Option.getD]
        rw [hw1]
        dsimp only []
        have hw2x : writeFields fs2 obj (pre.length + out1.length)
            = .ok out2 := by
          simpa using hw2
        rw [hw2x]
      · simp only [readFields]
        simp only [List.append_assoc] at hr1 hr2 ⊢
        simp only [List.length_append] at hr2
        rw [hr1]
        dsimp only []
        rw [hr2]
        simp only [Option.some.injEq, Prod.mk.injEq, List.length_append,
          true_and]
        omega

end

/-- Top-level round-trip: for a well-formed schema and a conforming value,
`serialize` succeeds and `deserialize` of its output returns the value. -/
theorem serialize_deserialize (s : RosSchema) (v : RosValue)
    (hwf : wfS s = true) (hc : conforms s v = true) :
    ∃ bytes : List Nat, serializeS s v = .ok bytes ∧
      deserializeS s bytes = some v := by
  obtain ⟨out, hw, hr⟩ := writeS_roundtrip s v hwf hc [0, 1, 0, 0] []
  refine ⟨[0, 1, 0, 0] ++ out, ?_, ?_⟩
  · simp only [serializeS]
    have hw4 : writeS s v 4 = .ok out := by simpa using hw
    rw [hw4]
  · simp only [deserializeS]
    rw [if_pos (by simp)]
    have hr4 : readS s ([0, 1, 0, 0] ++ out) 4 = some (v, 4 + out.length) := by
      simpa using hr
    rw [hr4]
    rfl

/-! ### Map lemmas -/

theorem mapGet_set_self (m : List (Nat × Nat)) (k v : Nat) :
    mapGet (mapSet m k v) k = some v := by
  induction m with
  | nil => simp [mapGet, mapSet]
  | cons kv rest ih =>
      obtain ⟨k2, v2⟩ := kv
      by_cases h : k2 = k
      · simp [mapGet, mapSet, h]
      · simp [mapGet, mapSet, h, ih]

theorem mapGet_set_other (m : List (Nat × Nat)) (k v k2 : Nat)
    (h : k2 ≠ k) : mapGet (mapSet m k v) k2 = mapGet m k2 := by
  induction m with
  | nil =>
      simp only [mapSet, mapGet]
      rw [if_neg (Ne.symm h)]
  | cons kv rest ih =>
      obtain ⟨k3, v3⟩ := kv
      by_cases h3 : k3 = k
      · subst h3
        simp only [mapSet, if_pos rfl, mapGet]
        rw [if_neg (Ne.symm h), if_neg (Ne.symm h)]
      · simp only [mapSet, if_neg h3, mapGet]
        by_cases h4 : k3 = k2
        · rw [if_pos h4, if_pos h4]
        · rw [if_neg h4, if_neg h4, ih]

theorem mapGet_delete_self (m : List (Nat × Nat)) (k : Nat) :
    mapGet (mapDelete m k) k = none := by
  induction m with
  | nil => rfl
  | cons kv rest ih =>
      obtain ⟨k2, v2⟩ := kv
      simp only [mapDelete, List.filter_cons] at ih ⊢
      by_cases h : k2 = k
      · rw [if_neg (by simp [h])]
        exact ih
      · rw [if_pos (by simp [h])]
        simp only [mapGet]
        rw [if_neg h]
        exact ih

theorem mapGet_delete_other (m : List (Nat × Nat)) (k k2 : Nat)
    (h : k2 ≠ k) : mapGet (mapDelete m k) k2 = mapGet m k2 := by
  induction m with
  | nil => rfl
  | cons kv rest ih =>
      obtain ⟨k3, v3⟩ := kv
      simp only [mapDelete, List.filter_cons] at ih ⊢
      by_cases h3 : k3 = k
      · rw [if_neg (by simp [h3])]
        rw [ih]
        simp only [mapGet]
        rw [if_neg (by omega)]
      · rw [if_pos (by simp [h3])]
        simp only [mapGet]
        by_cases h4 : k3 = k2
        · rw [if_pos h4, if_pos h4]
        · rw [if_neg h4, if_neg h4, ih]



theorem parseBinaryPayload_eq_none (buffer : List Nat)
    (h : buffer.length < minFrameLen (buffer.headD 0) ∨
         (buffer.headD 0 ≠ OP_TOPIC ∧ buffer.headD 0 ≠ OP_SERVICE_REQUEST ∧
          buffer.headD 0 ≠ OP_SERVICE_RESPONSE)) :
    parseBinaryPayload buffer = none := by
  by_cases hlen : buffer.length < 5
  · simp [parseBinaryPayload, hlen]
  · have hop : buffer.headD 0 ≠ OP_TOPIC ∧
        buffer.headD 0 ≠ OP_SERVICE_RESPONSE := by
      rcases h with h | h
      · by_cases h1 : buffer.headD 0 = OP_SERVICE_REQUEST
        · rw [h1]
          constructor <;> simp [OP_SERVICE_REQUEST, OP_TOPIC,
            OP_SERVICE_RESPONSE]
        · rw [minFrameLen, if_neg h1] at h
          omega
      · exact ⟨h.1, h.2.2⟩
    unfold parseBinaryPayload
    rw [if_neg hlen]
    dsimp only []
    rw [if_neg hop.1, if_neg hop.2]

theorem parse_service_response (c : Nat) (hc32 : c < 2 ^ 32)
    (payload : List Nat) :
    parseBinaryPayload ([OP_SERVICE_RESPONSE] ++ natLE 4 c ++ payload)
      = some (.serviceResponse c payload) := by
  unfold parseBinaryPayload
  rw [if_neg (by simp)]
  have hhead : ([OP_SERVICE_RESPONSE] ++ natLE 4 c ++ payload).headD 0
      = OP_SERVICE_RESPONSE := by
    simp
  rw [hhead]
  rw [if_neg (by simp [OP_TOPIC, OP_SERVICE_RESPONSE])]
  rw [if_pos rfl]
  have hdrop1 : ([OP_SERVICE_RESPONSE] ++ natLE 4 c ++ payload).drop 1
      = natLE 4 c ++ payload := by
    simp
  have htake : ((natLE 4 c ++ payload).take 4) = natLE 4 c :=
    List.take_left' (by simp)
  have hdrop5 : ([OP_SERVICE_RESPONSE] ++ natLE 4 c ++ payload).drop 5
      = payload := by
    rw [show ([OP_SERVICE_RESPONSE] ++ natLE 4 c ++ payload)
        = ([OP_SERVICE_RESPONSE] ++ natLE 4 c) ++ payload from by simp]
    exact List.drop_left' (by simp)
  rw [hdrop1, htake, hdrop5]
  have hval : natFromLE (natLE 4 c) = c := by
    apply natFromLE_natLE_of_lt
    have hc : (2 : Nat) ^ (8 * 4) = 2 ^ 32 := by norm_num
    omega
  rw [hval]


/-- C9: a binary frame carrying an unrecognized opcode, or shorter than its
opcode's minimum length, is dropped: no error is raised and the
pending-call, subscription, and service-response tables are all exactly
unchanged. -/
theorem frame_robustness (st : ClientState) (buffer : List Nat)
    (h : buffer.length < minFrameLen (buffer.headD 0) ∨
         (buffer.headD 0 ≠ OP_TOPIC ∧ buffer.headD 0 ≠ OP_SERVICE_REQUEST ∧
          buffer.headD 0 ≠ OP_SERVICE_RESPONSE)) :
    onBinaryPayload st buffer = (st, []) := by
  unfold onBinaryPayload
  rw [parseBinaryPayload_eq_none buffer h]

/-- Witness for C9 at a concrete short frame and a concrete client state. -/
theorem frame_robustness_witness :
    (([9, 9] : List Nat).length < minFrameLen (([9, 9] : List Nat).headD 0) ∨
     (([9, 9] : List Nat).headD 0 ≠ OP_TOPIC ∧
      ([9, 9] : List Nat).headD 0 ≠ OP_SERVICE_REQUEST ∧
      ([9, 9] : List Nat).headD 0 ≠ OP_SERVICE_RESPONSE)) ∧
    onBinaryPayload ⟨[(1, 2)], [(3, 4)], [(5, 6)], 7⟩ [9, 9]
      = (⟨[(1, 2)], [(3, 4)], [(5, 6)], 7⟩, []) :=
  ⟨by decide,
   frame_robustness ⟨[(1, 2)], [(3, 4)], [(5, 6)], 7⟩ [9, 9] (by decide)⟩

/-- C6 counterexample: `destroy` sends the DestroyRequest before removing
the local subscription callback, not after; when the channel send throws,
the exception propagates and the callback registered under the id is still
installed, which could not happen had the removal preceded the send. -/
theorem destroy_order_counterexample :
    (destroy ⟨[], [(5, 7)], [], 0⟩ 5 false).2.2 = true ∧
    (destroy ⟨[], [(5, 7)], [], 0⟩ 5 false).1.subscriptions = [(5, 7)] ∧
    (destroy ⟨[], [(5, 7)], [], 0⟩ 5 true).2.1
      = [.sendText (.destroyReq 5)] ∧
    (destroy ⟨[], [(5, 7)], [], 0⟩ 5 true).1.subscriptions = [] := by
  refine ⟨rfl, rfl, rfl, by decide⟩

/-- C6 amended: `destroy` sends the one-way DestroyRequest first and then
removes the local subscription callback; it is synchronous, never waits
for any acknowledgment, and leaves the pending-call and service-response
tables exactly unchanged.  If the send throws, the exception propagates
before the callback is removed. -/
theorem destroy_spec (st : ClientState) (id : Nat) :
    destroy st id true
      = ({ st with subscriptions := mapDelete st.subscriptions id },
         [.sendText (.destroyReq id)], false) ∧
    (destroy st id true).1.pendingCreates = st.pendingCreates ∧
    (destroy st id true).1.serviceResponses = st.serviceResponses ∧
    destroy st id false = (st, [], true) :=
  ⟨rfl, rfl, rfl, rfl⟩

/-- C10: a signal already aborted at call time makes `callService` and all
three `create*` methods reject immediately with the signal's reason; no
frame is sent and no entry is added to the pending-call or
service-response table (`callService` checks before even allocating its
call id; the `create*` methods have already incremented the counter). -/
theorem aborted_signal_rejects (st : ClientState) (id : Nat)
    (request : List Nat) (name ty : String) (qos : Nat)
    (p reason sendErr : Nat) (sendOk : Bool) (req : CreateRequest) :
    callService st id request p true reason sendOk sendErr
      = (st, [.rejectP p reason]) ∧
    sendCreateRequest st req p true reason sendOk sendErr
      = (st, [.rejectP p reason]) ∧
    createPublisher st name ty qos p true reason sendOk sendErr
      = ({ st with nextCallId := st.nextCallId + 1 },
         [.rejectP p reason]) ∧
    createSubscription st name ty qos p true reason sendOk sendErr
      = ({ st with nextCallId := st.nextCallId + 1 },
         [.rejectP p reason]) ∧
    createServiceClient st name ty qos p true reason sendOk sendErr
      = ({ st with nextCallId := st.nextCallId + 1 },
         [.rejectP p reason]) :=
  ⟨rfl, rfl, rfl, rfl, rfl⟩

/-- C4 counterexample: with an empty initial state, a synchronously
throwing send in `callService` (and in `#sendCreateRequest`) rejects the
caller with the thrown error, yet the entry just registered in the
corresponding pending table is still there afterwards — it is not removed
before (nor after) the failure is reported. -/
theorem send_failure_counterexample :
    (callService ⟨[], [], [], 0⟩ 5 [] 9 false 0 false 3).2
      = [.rejectP 9 3] ∧
    (callService ⟨[], [], [], 0⟩ 5 [] 9 false 0 false 3).1.serviceResponses
      = [(0, 9)] ∧
    (sendCreateRequest ⟨[], [], [], 0⟩ ⟨1, .createPublisher, "n", "t", 0⟩
        9 false 0 false 3).2
      = [.rejectP 9 3] ∧
    (sendCreateRequest ⟨[], [], [], 0⟩ ⟨1, .createPublisher, "n", "t", 0⟩
        9 false 0 false 3).1.pendingCreates
      = [(1, 9)] := by
  refine ⟨rfl, rfl, rfl, rfl⟩

/-- C4 amended: a synchronous channel-send failure propagates to the
caller of the endpoint-creation or service call as a rejection carrying
the thrown error, but the pending-table entry just registered for that
call id remains in the table — it is not removed. -/
theorem send_failure_rejects (st : ClientState) (req : CreateRequest)
    (id : Nat) (request : List Nat) (p reason sendErr : Nat) :
    (sendCreateRequest st req p false reason false sendErr).2
      = [.rejectP p sendErr] ∧
    mapGet (sendCreateRequest st req p false reason false
        sendErr).1.pendingCreates req.call_id
      = some p ∧
    (callService st id request p false reason false sendErr).2
      = [.rejectP p sendErr] ∧
    mapGet (callService st id request p false reason false
        sendErr).1.serviceResponses st.nextCallId
      = some p := by
  refine ⟨rfl, ?_, rfl, ?_⟩
  · simp [sendCreateRequest, mapGet_set_self]
  · simp [callService, mapGet_set_self]

/-- C2: two concurrent creation calls hold the distinct call ids `n` and
`n + 1`; when their CreateResponses arrive in reverse order, the first
response (call id `n + 1`) resolves only the second call's promise with
its own endpoint id, and the second response (call id `n`) resolves only
the first call's promise with its endpoint id — never swapped. -/
theorem create_out_of_order (st0 : ClientState) (nA tA nB tB : String)
    (qA qB pA pB idA idB rA rB eA eB : Nat) :
    st0.nextCallId ≠ st0.nextCallId + 1 ∧
    (onTextPayload
        (createSubscription
          (createSubscription st0 nA tA qA pA false rA true eA).1
          nB tB qB pB false rB true eB).1
        (some ⟨idB, st0.nextCallId + 1⟩)).2 = [.resolveCreate pB idB] ∧
    (onTextPayload
        (onTextPayload
          (createSubscription
            (createSubscription st0 nA tA qA pA false rA true eA).1
            nB tB qB pB false rB true eB).1
          (some ⟨idB, st0.nextCallId + 1⟩)).1
        (some ⟨idA, st0.nextCallId⟩)).2 = [.resolveCreate pA idA] := by
  have hBgetB : mapGet (mapSet (mapSet st0.pendingCreates st0.nextCallId pA)
      (st0.nextCallId + 1) pB) (st0.nextCallId + 1) = some pB :=
    mapGet_set_self _ _ _
  have hAgetA : mapGet (mapDelete (mapSet (mapSet st0.pendingCreates
      st0.nextCallId pA) (st0.nextCallId + 1) pB) (st0.nextCallId + 1))
      st0.nextCallId = some pA := by
    rw [mapGet_delete_other _ _ _ (by omega),
        mapGet_set_other _ _ _ _ (by omega), mapGet_set_self]
  refine ⟨by omega, ?_, ?_⟩
  · simp only [createSubscription, sendCreateRequest, onTextPayload]
    simp [hBgetB]
  · simp only [createSubscription, sendCreateRequest, onTextPayload]
    simp [hBgetB, hAgetA]


/-- C3: for a pending operation with call id `c` and resolver `p` (service
call or endpoint creation): if the cancellation trigger fires first, the
pending entry is removed and the caller is rejected with the supplied
reason, and the matching response arriving afterwards resolves nothing and
changes nothing; if the response arrives first, it resolves the caller,
and firing the trigger afterwards changes nothing. -/
theorem cancel_race (st : ClientState) (c p r eid : Nat)
    (payload : List Nat) (hc32 : c < 2 ^ 32)
    (hs : mapGet st.serviceResponses c = some p)
    (hp : mapGet st.pendingCreates c = some p) :
    fireServiceAbort st c p r
      = ({ st with serviceResponses := mapDelete st.serviceResponses c },
         [.rejectP p r]) ∧
    onBinaryPayload
        { st with serviceResponses := mapDelete st.serviceResponses c }
        ([OP_SERVICE_RESPONSE] ++ natLE 4 c ++ payload)
      = ({ st with serviceResponses := mapDelete st.serviceResponses c },
         []) ∧
    onBinaryPayload st ([OP_SERVICE_RESPONSE] ++ natLE 4 c ++ payload)
      = ({ st with serviceResponses := mapDelete st.serviceResponses c },
         [.resolveService p payload]) ∧
    fireServiceAbort
        { st with serviceResponses := mapDelete st.serviceResponses c }
        c p r
      = ({ st with serviceResponses := mapDelete st.serviceResponses c },
         []) ∧
    fireCreateAbort st c p r
      = ({ st with pendingCreates := mapDelete st.pendingCreates c },
         [.rejectP p r]) ∧
    onTextPayload
        { st with pendingCreates := mapDelete st.pendingCreates c }
        (some ⟨eid, c⟩)
      = ({ st with pendingCreates := mapDelete st.pendingCreates c }, []) ∧
    onTextPayload st (some ⟨eid, c⟩)
      = ({ st with pendingCreates := mapDelete st.pendingCreates c },
         [.resolveCreate p eid]) ∧
    fireCreateAbort
        { st with pendingCreates := mapDelete st.pendingCreates c } c p r
      = ({ st with pendingCreates := mapDelete st.pendingCreates c }, []) := by
  have hparse := parse_service_response c hc32 payload
  refine ⟨?_, ?_, ?_, ?_, ?_, ?_, ?_, ?_⟩
  · simp [fireServiceAbort, mapHas, hs]
  · unfold onBinaryPayload
    rw [hparse]
    dsimp only []
    rw [mapGet_delete_self]
  · unfold onBinaryPayload
    rw [hparse]
    dsimp only []
    rw [hs]
  · simp [fireServiceAbort, mapHas, mapGet_delete_self]
  · simp [fireCreateAbort, mapHas, hp]
  · unfold onTextPayload
    dsimp only []
    rw [mapGet_delete_self]
  · unfold onTextPayload
    dsimp only []
    rw [hp]
  · simp [fireCreateAbort, mapHas, mapGet_delete_self]

/-- Witness for C3 at a concrete state with one pending service call and
one pending create, both with call id 3 and resolver 7. -/
theorem cancel_race_witness :
    3 < 2 ^ 32 ∧
    mapGet ([(3, 7)] : List (Nat × Nat)) 3 = some 7 ∧
    fireServiceAbort ⟨[(3, 7)], [], [(3, 7)], 4⟩ 3 7 1
      = (⟨[(3, 7)], [], [], 4⟩, [.rejectP 7 1]) :=
  ⟨by decide, by decide, by
    have h := cancel_race ⟨[(3, 7)], [], [(3, 7)], 4⟩ 3 7 1 12 [9]
      (by decide) (by decide) (by decide)
    exact h.1⟩

/-- C5: a primitive tag outside the 14 canonical ones is rejected when the
schema node is constructed — the tag does not map to any `PrimTag`, so no
`RosPrimitiveSchema` node (and hence no serialize or deserialize on it)
can exist. -/
theorem unrecognized_tag_construction_fails (s : String)
    (h : s ∉ canonicalTags) : primTagOfString s = none := by
  simp only [canonicalTags, List.mem_cons, not_or] at h
  obtain ⟨h1, h2, h3, h4, h5, h6, h7, h8, h9, h10, h11, h12, h13, h14,
    h15, h16⟩ := h
  simp [primTagOfString, h1, h2, h3, h4, h5, h6, h7, h8, h9, h10, h11,
    h12, h13, h14, h15]

/-- Witness for C5 at the unrecognized tag `float128`. -/
theorem unrecognized_tag_witness :
    "float128" ∉ canonicalTags ∧ primTagOfString "float128" = none :=
  ⟨by decide, unrecognized_tag_construction_fails "float128" (by decide)⟩

/-- C7: a zero-field message serializes to exactly the 5 bytes
`00 01 00 00 00` (the envelope header and one zero byte), and those bytes
deserialize back to the empty record, the read consuming exactly the
header plus one byte (final position 5). -/
theorem empty_message_bytes :
    serializeS (.msg "std_msgs/msg/Empty" .nil) (.vmsg [])
      = .ok [0, 1, 0, 0, 0] ∧
    ([0, 1, 0, 0, 0] : List Nat).length = 5 ∧
    readS (.msg "std_msgs/msg/Empty" .nil) [0, 1, 0, 0, 0] 4
      = some (.vmsg [], 5) ∧
    deserializeS (.msg "std_msgs/msg/Empty" .nil) [0, 1, 0, 0, 0]
      = some (.vmsg []) :=
  ⟨rfl, rfl, rfl, rfl⟩

/-- C8: encoding an input list whose length differs from a fixed-length
array schema's declared length fails with an encode error, and the array
node emits no bytes (the length check precedes the element loop, so the
error carries an empty emitted-bytes list). -/
theorem fixed_array_mismatch (elem : RosSchema) (k : Nat)
    (vs : List RosValue) (off : Nat) (h : vs.length ≠ k) :
    writeS (.arr elem (some k)) (.varr vs) off = .error [] := by
  simp only [writeS, RosValue.asArr]
  rw [if_neg h]

/-- Witness for C8: a 3-element array against a schema fixed at length 2. -/
theorem fixed_array_mismatch_witness :
    (([RosValue.vint 1, RosValue.vint 2, RosValue.vint 3] :
        List RosValue).length ≠ 2) ∧
    writeS (.arr (.prim .uint8) (some 2))
        (.varr [.vint 1, .vint 2, .vint 3]) 4 = .error [] :=
  ⟨by decide,
   fixed_array_mismatch (.prim .uint8) 2 [.vint 1, .vint 2, .vint 3] 4
     (by decide)⟩

/-- C1: for every well-formed message schema and every conforming value,
serialization succeeds and deserializing the produced bytes yields a value
equal to the original. -/
theorem roundtrip_message (name : String) (fs : FieldList) (v : RosValue)
    (hwf : wfS (.msg name fs) = true)
    (hc : conforms (.msg name fs) v = true) :
    ∃ bytes : List Nat, serializeS (.msg name fs) v = .ok bytes ∧
      deserializeS (.msg name fs) bytes = some v :=
  serialize_deserialize (.msg name fs) v hwf hc

/-- Witness for C1 at a message schema exercising primitives (with
alignment), a string, a variable array, a fixed array and a nested
message. -/
theorem roundtrip_message_witness :
    wfS (.msg "test_msgs/msg/Demo"
        (.cons "a" (.prim .uint8)
          (.cons "b" (.prim .uint32)
            (.cons "c" (.prim .str)
              (.cons "d" (.arr (.prim .int16) none)
                (.cons "e" (.arr (.prim .float64) (some 2))
                  (.cons "f" (.msg "test_msgs/msg/Inner"
                      (.cons "x" (.prim .int64) .nil))
                    .nil))))))) = true ∧
    conforms (.msg "test_msgs/msg/Demo"
        (.cons "a" (.prim .uint8)
          (.cons "b" (.prim .uint32)
            (.cons "c" (.prim .str)
              (.cons "d" (.arr (.prim .int16) none)
                (.cons "e" (.arr (.prim .float64) (some 2))
                  (.cons "f" (.msg "test_msgs/msg/Inner"
                      (.cons "x" (.prim .int64) .nil))
                    .nil)))))))
      (.vmsg [("a", .vint 7), ("b", .vint 1234), ("c", .vstr [104, 105]),
        ("d", .varr [.vint (-5), .vint 300]),
        ("e", .varr [.vfloat 4607182418800017408, .vfloat 0]),
        ("f", .vmsg [("x", .vbig (-99))])]) = true ∧
    (∃ bytes : List Nat,
      serializeS (.msg "test_msgs/msg/Demo"
          (.cons "a" (.prim .uint8)
            (.cons "b" (.prim .uint32)
              (.cons "c" (.prim .str)
                (.cons "d" (.arr (.prim .int16) none)
                  (.cons "e" (.arr (.prim .float64) (some 2))
                    (.cons "f" (.msg "test_msgs/msg/Inner"
                        (.cons "x" (.prim .int64) .nil))
                      .nil)))))))
        (.vmsg [("a", .vint 7), ("b", .vint 1234), ("c", .vstr [104, 105]),
          ("d", .varr [.vint (-5), .vint 300]),
          ("e", .varr [.vfloat 4607182418800017408, .vfloat 0]),
          ("f", .vmsg [("x", .vbig (-99))])]) = .ok bytes ∧
      deserializeS (.msg "test_msgs/msg/Demo"
          (.cons "a" (.prim .uint8)
            (.cons "b" (.prim .uint32)
              (.cons "c" (.prim .str)
                (.cons "d" (.arr (.prim .int16) none)
                  (.cons "e" (.arr (.prim .float64) (some 2))
                    (.cons "f" (.msg "test_msgs/msg/Inner"
                        (.cons "x" (.prim .int64) .nil))
                      .nil)))))))
        bytes
        = some (.vmsg [("a", .vint 7), ("b", .vint 1234),
            ("c", .vstr [104, 105]),
            ("d", .varr [.vint (-5), .vint 300]),
            ("e", .varr [.vfloat 4607182418800017408, .vfloat 0]),
            ("f", .vmsg [("x", .vbig (-99))])])) :=
  ⟨by decide, by decide,
   roundtrip_message "test_msgs/msg/Demo" _ _ (by decide) (by decide)⟩

end RosCdr
